import Mathlib

/-!
Verification development for the ESP_ticker Message Store & Ticker Control
Engine (repository `mrWheel/IDE-convertors`, ESP_ticker sources).

The repository ships interface headers (`littlefsStuff.h`, `restAPI.h`,
`newsapi_org.h`, `settingStuff.h`, `allDefines.h`); the function bodies
behind those prototypes are not part of the source tree, so the operations
are modelled from the specification, while all types, names and numeric
constants are taken from the headers.
-/

namespace ESPTicker

/-! ## Compile-time constants, from `allDefines.h` -/

def MAX_SPEED : Nat := 50
def LOCAL_SIZE : Nat := 255
def NEWS_SIZE : Nat := 512
def JSON_BUFF_MAX : Nat := 255
def MAX_NO_NO_WORDS : Nat := 20
def MAX_FILES_IN_LIST : Nat := 25

/-! ## Error kinds, from spec section 7 -/

inductive ApiError where
  | InvalidValue
  | NotFound
  | CapacityExceeded
  | TextTooLong
  | BadRequest
  | StorageFailure
  | TransportFailure
  | ParseFailure
  deriving DecidableEq, Repr

/-! ## Message collections

A message is identified by a `(collection, id)` pair; `collection` is the
`fType` tag of `readFileById` / `writeFileById` in `littlefsStuff.h`. -/

inductive Collection where
  | Local
  | News
  deriving DecidableEq, Repr

/-- Body-text length bound per collection: `LOCAL_SIZE` / `NEWS_SIZE`
from `allDefines.h`. -/
def maxLen : Collection → Nat
  | .Local => LOCAL_SIZE
  | .News => NEWS_SIZE

/-- A collection of messages: an association list from id to body text,
kept sorted by ascending id (the enumeration order used by the
Scheduler, spec section 4.2). -/
abbrev MsgColl := List (Nat × String)

/-- Ids of a collection, in enumeration order. -/
def ids (c : MsgColl) : List Nat := c.map Prod.fst

/-- The sortedness invariant of a collection: ids strictly ascending. -/
def SortedColl (c : MsgColl) : Prop :=
  List.Pairwise (fun p q => p.1 < q.1) c

instance : DecidablePred SortedColl := fun c =>
  inferInstanceAs (Decidable (List.Pairwise _ c))

/-- Look a message up by id. -/
def getMsg (c : MsgColl) (i : Nat) : Option String :=
  (c.find? (fun p => p.1 == i)).map Prod.snd

/-- Insert or overwrite a message, keeping ids sorted ascending. -/
def insertSorted (i : Nat) (t : String) : MsgColl → MsgColl
  | [] => [(i, t)]
  | (j, u) :: rest =>
    if i < j then (i, t) :: (j, u) :: rest
    else if i = j then (i, t) :: rest
    else (j, u) :: insertSorted i t rest

/-- Remove a message by id. -/
def removeMsg (c : MsgColl) (i : Nat) : MsgColl :=
  c.filter (fun p => p.1 ≠ i)

/-- Modelled from the spec: `bool writeFileById(const char* fType, uint8_t
mId, const char *msg)` (`littlefsStuff.h`, body absent from the tree).
The id parameter has C type `uint8_t`, so the incoming id is reduced
modulo 256 at the interface; the write is refused (`false`) when the text
exceeds the collection's length bound, otherwise the record keyed by
`(fType, mId)` is created or overwritten. Returns the success flag and
the resulting collection. -/
def writeFileById (fType : Collection) (c : MsgColl) (mId : Nat)
    (msg : String) : Bool × MsgColl :=
  if msg.length > maxLen fType then (false, c)
  else (true, insertSorted (mId % 256) msg c)

/-- Modelled from the spec: `bool readFileById(const char* fType, uint8_t
mId)` (`littlefsStuff.h`, body absent from the tree). Reads the record
keyed by `(fType, mId)`; the id is a `uint8_t`, hence reduced modulo 256.
The C function loads the text into a buffer and returns a flag; here the
text itself is returned, `none` standing for failure. -/
def readFileById (_fType : Collection) (c : MsgColl) (mId : Nat) :
    Option String :=
  getMsg c (mId % 256)

/-! ## Store-level contract per collection, spec section 4.2 -/

/-- Modelled from the spec: `put(C, id, text)` (spec section 4.2; realized
by `postMessages` in `restAPI.h` over `writeFileById`, bodies absent from
the tree). Creates or overwrites; fails with `TextTooLong` past the
length bound, with `CapacityExceeded` when the id is new and the
collection already holds `maxMsg` messages. Errors leave the collection
unchanged. -/
def put (fType : Collection) (maxMsg : Nat) (c : MsgColl) (i : Nat)
    (t : String) : Except ApiError MsgColl :=
  if t.length > maxLen fType then .error .TextTooLong
  else if getMsg c (i % 256) = none ∧ maxMsg ≤ c.length then
    .error .CapacityExceeded
  else .ok (writeFileById fType c i t).2

/-- Modelled from the spec: `delete(C, id)` (spec section 4.2, bodies
absent from the tree). Deleting an absent id is an explicit `NotFound`
error, and errors leave the collection unchanged. -/
def deleteById (c : MsgColl) (i : Nat) : Except ApiError MsgColl :=
  if (getMsg c i).isSome then .ok (removeMsg c i) else .error .NotFound

/-- Smallest unused id strictly below `n`, if any. -/
def firstFreeBelow (c : MsgColl) : Nat → Option Nat
  | 0 => none
  | m + 1 =>
    match firstFreeBelow c m with
    | some k => some k
    | none => if getMsg c m = none then some m else none

/-- Modelled from the spec: `allocateId(C)` (spec section 4.2; triggered by
`postMessages` when the id is omitted, bodies absent from the tree).
Returns the smallest id below the configured maximum that is not in use,
or `CapacityExceeded` when none is free. -/
def allocateId (maxMsg : Nat) (c : MsgColl) : Except ApiError Nat :=
  match firstFreeBelow c maxMsg with
  | some k => .ok k
  | none => .error .CapacityExceeded

/-- Number a list of texts with consecutive ids starting at `k`. -/
def numberFrom (k : Nat) : List String → MsgColl
  | [] => []
  | t :: rest => (k, t) :: numberFrom (k + 1) rest

/-- Modelled from the spec: candidate admission during a News refresh
(spec sections 4.2 and 4.3, bodies absent from the tree). Over-long
candidates are dropped, the remainder is truncated to the configured News
capacity and numbered with ascending ids starting at 0. -/
def validateCandidates (maxMsg : Nat) (cands : List String) : MsgColl :=
  numberFrom 0 ((cands.filter (fun t => t.length ≤ NEWS_SIZE)).take maxMsg)

/-- Modelled from the spec: `replaceAll(News, newMessages)` interrupted at
step `j` (spec sections 4.2 and 5; realized by `removeNewsData` +
`getNewsapiData` in `newsapi_org.h`, bodies absent from the tree). The
new generation is fully built and validated in a scratch area and
committed in one final atomic step; steps `0 .. n-1` write the `n`
validated records to scratch, step `n` commits. A reader after an
interruption at step `j` sees the old generation until the commit has
happened and the new one afterwards. -/
def replaceAllInterrupted (maxMsg : Nat) (old : MsgColl)
    (cands : List String) (j : Nat) : MsgColl :=
  if j ≤ (validateCandidates maxMsg cands).length then old
  else validateCandidates maxMsg cands

/-! ## Settings store, spec section 4.1 and `settingStuff.h` -/

/-- The eight operator-configurable settings declared `extern` in
`restAPI.h` / `settingStuff.h`. -/
inductive SettingName where
  | textSpeed
  | maxIntensity
  | LDRlowOffset
  | LDRhighOffset
  | localMaxMsg
  | newsMaxMsg
  | newsInterval
  | weerLiveInterval
  deriving DecidableEq, Repr

def allSettingNames : List SettingName :=
  [.textSpeed, .maxIntensity, .LDRlowOffset, .LDRhighOffset,
   .localMaxMsg, .newsMaxMsg, .newsInterval, .weerLiveInterval]

/-- Key under which a setting is stored, mirroring the variable names of
the headers. -/
def settingKey : SettingName → String
  | .textSpeed => "textSpeed"
  | .maxIntensity => "maxIntensity"
  | .LDRlowOffset => "LDRlowOffset"
  | .LDRhighOffset => "LDRhighOffset"
  | .localMaxMsg => "localMaxMsg"
  | .newsMaxMsg => "newsMaxMsg"
  | .newsInterval => "newsInterval"
  | .weerLiveInterval => "weerLiveInterval"

def parseSettingName (field : String) : Option SettingName :=
  allSettingNames.find? (fun n => settingKey n == field)

/-- Digit-by-digit accumulation of a decimal numeral. -/
def parseNatAux : List Char → Nat → Option Nat
  | [], acc => some acc
  | ch :: rest, acc =>
    if ch.isDigit then parseNatAux rest (acc * 10 + (ch.toNat - 48))
    else none

/-- Modelled from the spec: parsing a raw numeric setting value (spec
section 4.1, bodies absent from the tree): a non-empty all-digit string
denotes its decimal value, anything else is a parse failure. -/
def parseNatRaw (s : String) : Option Nat :=
  if s.toList.isEmpty then none else parseNatAux s.toList 0

/-- Modelled from the spec: inclusive bounds per setting (spec sections 3
and 4.1; the setting bodies are absent from the tree). The C types bound
`LDRlowOffset` / `LDRhighOffset` by `uint16_t` and the rest by `uint8_t`;
`textSpeed` is additionally capped by `MAX_SPEED` and the two message
limits are clamped to the compile-time ceiling `MAX_FILES_IN_LIST`, as
spec section 9 prescribes. -/
def settingMin : SettingName → Nat
  | _ => 0

def settingMax : SettingName → Nat
  | .textSpeed => MAX_SPEED
  | .maxIntensity => 15
  | .LDRlowOffset => 65535
  | .LDRhighOffset => 65535
  | .localMaxMsg => MAX_FILES_IN_LIST
  | .newsMaxMsg => MAX_FILES_IN_LIST
  | .newsInterval => 255
  | .weerLiveInterval => 255

/-- Modelled from the spec: compiled-in defaults used when a setting is
missing from the durable file (spec section 4.1, bodies absent from the
tree). -/
def settingDefault : SettingName → Nat
  | .textSpeed => 25
  | .maxIntensity => 6
  | .LDRlowOffset => 0
  | .LDRhighOffset => 1024
  | .localMaxMsg => 10
  | .newsMaxMsg => 10
  | .newsInterval => 30
  | .weerLiveInterval => 10

/-- The in-memory settings state: one value per setting name. -/
abbrev Settings := SettingName → Nat

def defaultSettings : Settings := settingDefault

/-- The durable settings record (`SETTINGS_FILE`, "key=value lines or
equivalent structured record", spec section 6). -/
abbrev SettingsFile := List (SettingName × Nat)

/-- Modelled from the spec: `void updateSetting(const char *field, const
char *newValue)` (`settingStuff.h`, body absent from the tree). The raw
value is parsed per the setting's kind (all eight settings are numeric);
an unknown field, a parse failure or an out-of-bounds value fails with
`InvalidValue` and leaves the state unchanged. -/
def updateSetting (s : Settings) (field newValue : String) :
    Except ApiError Unit × Settings :=
  match parseSettingName field with
  | none => (.error .InvalidValue, s)
  | some n =>
    match parseNatRaw newValue with
    | none => (.error .InvalidValue, s)
    | some v =>
      if settingMin n ≤ v ∧ v ≤ settingMax n then
        (.ok (), fun m => if m = n then v else s m)
      else (.error .InvalidValue, s)

/-- Modelled from the spec: `void writeSettings(bool show)`
(`settingStuff.h`, body absent from the tree): persist every setting to
the durable record. -/
def writeSettings (s : Settings) : SettingsFile :=
  allSettingNames.map (fun n => (n, s n))

/-- Modelled from the spec: `void readSettings(bool show)`
(`settingStuff.h`, body absent from the tree): load all settings from the
durable record, filling any missing setting with its compiled-in
default. -/
def readSettings (file : SettingsFile) : Settings := fun n =>
  match file.find? (fun p => p.1 == n) with
  | some p => p.2
  | none => settingDefault n

/-! ## News ingestion client, spec section 4.3 and `newsapi_org.h` -/

/-- State of the News ingestion client: the News collection plus the
"last refreshed" bookkeeping that schedules the next fetch. -/
structure NewsClientState where
  news : MsgColl
  lastRefreshed : Nat
  deriving DecidableEq, Repr

/-- Outcome of one external fetch-and-parse: `none` is a transport
failure, `some none` a parse failure, `some (some cands)` the parsed
candidate messages. -/
abbrev FetchOutcome := Option (Option (List String))

/-- A refresh is due when a full `settingNewsInterval` has elapsed since
the last successful refresh. -/
def refreshDue (interval : Nat) (st : NewsClientState) (now : Nat) :
    Bool :=
  st.lastRefreshed + interval ≤ now

/-- Modelled from the spec: `bool getNewsapiData()` (`newsapi_org.h`, body
absent from the tree). One refresh cycle: on a transport or parse failure
the previous News collection is left untouched and the bookkeeping is not
advanced, so the next tick retries; on success the validated candidates
replace the whole News collection and `lastRefreshed` advances to
`now`. -/
def getNewsapiData (maxMsg : Nat) (st : NewsClientState) (now : Nat)
    (fetched : FetchOutcome) : Except ApiError Unit × NewsClientState :=
  match fetched with
  | none => (.error .TransportFailure, st)
  | some none => (.error .ParseFailure, st)
  | some (some cands) =>
    (.ok (), { news := validateCandidates maxMsg cands,
               lastRefreshed := now })

/-! ## Ticker scheduler, spec section 4.4 -/

/-- The two stores the Scheduler reads. -/
structure Stores where
  localMsgs : MsgColl
  newsMsgs : MsgColl
  deriving DecidableEq, Repr

/-- Rotation order: the logical concatenation `Local ++ News`, each in
ascending-id enumeration order (spec section 4.4). -/
def rotation (s : Stores) : List (Collection × Nat) :=
  s.localMsgs.map (fun p => (Collection.Local, p.1)) ++
    s.newsMsgs.map (fun p => (Collection.News, p.1))

/-- Rotation position order: all Local positions precede all News
positions, ids ascending within a collection; ids are `uint8_t`, hence
below 256. -/
def posKey : Collection × Nat → Nat
  | (.Local, i) => i
  | (.News, i) => 256 + i

/-- Modelled from the spec: one Scheduler advance (spec section 4.4,
body absent from the tree). From the current position, pick the first
still-existing entry strictly later in rotation order, wrapping to the
front of the rotation when none is later; `none` is the `Idle` state of
an empty rotation. A deleted current position needs no special case: the
scan only ever lands on entries of the present snapshot. -/
def advance (s : Stores) (cur : Collection × Nat) :
    Option (Collection × Nat) :=
  match (rotation s).find? (fun e => posKey cur < posKey e) with
  | some e => some e
  | none => (rotation s).head?

/-! ## Request/response API layer, spec section 4.5 and `restAPI.h` -/

structure ApiResponse where
  status : Nat
  body : String
  deriving DecidableEq, Repr

/-- Modelled from the spec: `void sendApiNotFound(const char *URI)`
(`restAPI.h`, body absent from the tree): the typed not-found response,
HTTP 404 with a JSON body naming the offending path. -/
def sendApiNotFound (uri : String) : ApiResponse :=
  { status := 404,
    body := "\x7b\"error\": \"not found\", \"uri\": \"" ++ uri ++
      "\"\x7d" }

/-- The routes served by `processAPI`, one per handler of `restAPI.h`. -/
def registeredRoutes : List String :=
  ["/api/v0/devinfo", "/api/v0/devtime", "/api/v0/settings",
   "/api/v0/messages", "/api/v0/newsmessages"]

/-- Modelled from the spec: route dispatch of `void processAPI()`
(`restAPI.h`, body absent from the tree). A registered route is served by
its handler (a 200 response here, standing for the handler's output); an
unrecognized route is answered by `sendApiNotFound` with the requested
path. -/
def processAPI (uri : String) : ApiResponse :=
  if registeredRoutes.contains uri then { status := 200, body := "" }
  else sendApiNotFound uri

/-! ## Reachable store states

The API layer and the News client are the only writers (spec section 2);
a reachable collection state is the result of a sequence of store
operations applied to the empty collection. -/

inductive StoreOp where
  | putMsg (i : Nat) (t : String)
  | delMsg (i : Nat)
  | replAll (cands : List String)

/-- One store operation, as the writers drive it: failed operations leave
the collection unchanged. -/
def applyOp (fType : Collection) (maxMsg : Nat) (c : MsgColl) :
    StoreOp → MsgColl
  | .putMsg i t =>
    match put fType maxMsg c i t with
    | .ok c2 => c2
    | .error _ => c
  | .delMsg i =>
    match deleteById c i with
    | .ok c2 => c2
    | .error _ => c
  | .replAll cands => validateCandidates maxMsg cands

/-- Run a sequence of store operations from the empty collection. -/
def runOps (fType : Collection) (maxMsg : Nat) (ops : List StoreOp) :
    MsgColl :=
  ops.foldl (applyOp fType maxMsg) []

/-! ## Helper lemmas about the collection operations -/

theorem getMsg_insertSorted_self (i : Nat) (t : String) (c : MsgColl) :
    getMsg (insertSorted i t c) i = some t := by
  induction c with
  | nil => simp [insertSorted, getMsg]
  | cons hd tl ih =>
    obtain ⟨j, u⟩ := hd
    by_cases h1 : i < j
    · simp [insertSorted, h1, getMsg]
    · by_cases h2 : i = j
      · simp [insertSorted, h1, h2, getMsg]
      · have hji : j < i := by omega
        have hj : ¬ (((j, u).1 == i) = true) := by
          simp only [beq_iff_eq]
          omega
        simp only [insertSorted, if_neg h1, if_neg h2]
        unfold getMsg
        have hstep : List.find? (fun p => p.1 == i)
            ((j, u) :: insertSorted i t tl) =
            List.find? (fun p => p.1 == i) (insertSorted i t tl) :=
          List.find?_cons_of_neg _ hj
        rw [hstep]
        exact ih

theorem getMsg_eq_none_iff (c : MsgColl) (i : Nat) :
    getMsg c i = none ↔ ∀ p ∈ c, p.1 ≠ i := by
  simp [getMsg, List.find?_eq_none]

theorem mem_insertSorted {q : Nat × String} {i : Nat} {t : String}
    {c : MsgColl} (h : q ∈ insertSorted i t c) : q = (i, t) ∨ q ∈ c := by
  induction c with
  | nil => simpa [insertSorted] using h
  | cons hd tl ih =>
    obtain ⟨j, u⟩ := hd
    by_cases h1 : i < j
    · rw [insertSorted, if_pos h1] at h
      rcases List.mem_cons.mp h with h | h
      · exact Or.inl h
      · exact Or.inr h
    · by_cases h2 : i = j
      · rw [insertSorted, if_neg h1, if_pos h2] at h
        rcases List.mem_cons.mp h with h | h
        · exact Or.inl h
        · exact Or.inr (List.mem_cons_of_mem _ h)
      · rw [insertSorted, if_neg h1, if_neg h2] at h
        rcases List.mem_cons.mp h with h | h
        · exact Or.inr (h ▸ List.mem_cons_self _ _)
        · rcases ih h with h3 | h3
          · exact Or.inl h3
          · exact Or.inr (List.mem_cons_of_mem _ h3)

theorem length_insertSorted_of_not_mem {i : Nat} {t : String}
    {c : MsgColl} (h : ∀ p ∈ c, p.1 ≠ i) :
    (insertSorted i t c).length = c.length + 1 := by
  induction c with
  | nil => simp [insertSorted]
  | cons hd tl ih =>
    obtain ⟨j, u⟩ := hd
    have hji : j ≠ i := h (j, u) (List.mem_cons_self _ _)
    by_cases h1 : i < j
    · simp [insertSorted, h1]
    · have h2 : i ≠ j := fun hEq => hji hEq.symm
      have ihl := ih (fun p hp => h p (List.mem_cons_of_mem _ hp))
      simp [insertSorted, h1, h2, ihl]

theorem length_insertSorted_of_mem {i : Nat} {t : String} {c : MsgColl}
    (hs : SortedColl c) (h : i ∈ ids c) :
    (insertSorted i t c).length = c.length := by
  induction c with
  | nil => simp [ids] at h
  | cons hd tl ih =>
    obtain ⟨j, u⟩ := hd
    have hhead : ∀ q ∈ tl, j < q.1 := (List.pairwise_cons.mp hs).1
    have htl : SortedColl tl := (List.pairwise_cons.mp hs).2
    obtain ⟨p, hp, hpi⟩ := List.mem_map.mp h
    rcases List.mem_cons.mp hp with hph | hph
    · have hij : i = j := by rw [hph] at hpi; omega
      have h1 : ¬ i < j := by omega
      simp [insertSorted, h1, hij]
    · have hji : j < i := hpi ▸ hhead p hph
      have h1 : ¬ i < j := by omega
      have h2 : i ≠ j := by omega
      have hmem : i ∈ ids tl := List.mem_map.mpr ⟨p, hph, hpi⟩
      simp [insertSorted, h1, h2, ih htl hmem]

theorem sorted_insertSorted {i : Nat} {t : String} {c : MsgColl}
    (hs : SortedColl c) : SortedColl (insertSorted i t c) := by
  induction c with
  | nil => simp [insertSorted, SortedColl]
  | cons hd tl ih =>
    obtain ⟨j, u⟩ := hd
    have hhead : ∀ q ∈ tl, j < q.1 := (List.pairwise_cons.mp hs).1
    have htl : SortedColl tl := (List.pairwise_cons.mp hs).2
    by_cases h1 : i < j
    · rw [insertSorted, if_pos h1]
      refine List.pairwise_cons.mpr ⟨?_, hs⟩
      intro q hq
      rcases List.mem_cons.mp hq with h | h
      · simp [h, h1]
      · exact Nat.lt_trans h1 (hhead q h)
    · by_cases h2 : i = j
      · rw [insertSorted, if_neg h1, if_pos h2]
        exact List.pairwise_cons.mpr ⟨fun q hq => h2 ▸ hhead q hq, htl⟩
      · rw [insertSorted, if_neg h1, if_neg h2]
        refine List.pairwise_cons.mpr ⟨?_, ih htl⟩
        intro q hq
        rcases mem_insertSorted hq with h | h
        · have : j < i := by omega
          simp [h, this]
        · exact hhead q h

theorem length_numberFrom (k : Nat) (l : List String) :
    (numberFrom k l).length = l.length := by
  induction l generalizing k with
  | nil => rfl
  | cons t rest ih => simp [numberFrom, ih]

theorem mem_numberFrom_key {p : Nat × String} {k : Nat} {l : List String}
    (h : p ∈ numberFrom k l) : k ≤ p.1 ∧ p.1 < k + l.length := by
  induction l generalizing k with
  | nil => simp [numberFrom] at h
  | cons t rest ih =>
    rw [numberFrom] at h
    rcases List.mem_cons.mp h with h | h
    · simp [h]
    · have := ih h
      simp only [List.length_cons]
      omega

theorem sorted_numberFrom (k : Nat) (l : List String) :
    SortedColl (numberFrom k l) := by
  induction l generalizing k with
  | nil => exact List.Pairwise.nil
  | cons t rest ih =>
    rw [numberFrom]
    refine List.pairwise_cons.mpr ⟨?_, ih (k + 1)⟩
    intro q hq
    have := mem_numberFrom_key hq
    omega

theorem sorted_validateCandidates (maxMsg : Nat) (cands : List String) :
    SortedColl (validateCandidates maxMsg cands) :=
  sorted_numberFrom 0 _

theorem length_validateCandidates (maxMsg : Nat) (cands : List String) :
    (validateCandidates maxMsg cands).length ≤ maxMsg := by
  rw [validateCandidates, length_numberFrom]
  exact List.length_take_le _ _

theorem mem_validateCandidates_key {p : Nat × String} {maxMsg : Nat}
    {cands : List String} (h : p ∈ validateCandidates maxMsg cands) :
    p.1 < maxMsg := by
  have hk := mem_numberFrom_key h
  have hlen := List.length_take_le maxMsg
    (cands.filter (fun t => t.length ≤ NEWS_SIZE))
  omega

theorem sorted_removeMsg {c : MsgColl} (hs : SortedColl c) (i : Nat) :
    SortedColl (removeMsg c i) :=
  List.Pairwise.filter _ hs

theorem length_removeMsg_le (c : MsgColl) (i : Nat) :
    (removeMsg c i).length ≤ c.length :=
  List.length_filter_le _ _

theorem mem_removeMsg {q : Nat × String} {c : MsgColl} {i : Nat}
    (h : q ∈ removeMsg c i) : q ∈ c :=
  List.mem_of_mem_filter h

/-! ## Helper lemmas about id allocation -/

theorem firstFreeBelow_none {c : MsgColl} {n : Nat}
    (h : firstFreeBelow c n = none) : ∀ j < n, getMsg c j ≠ none := by
  induction n with
  | zero => omega
  | succ m ih =>
    rw [firstFreeBelow] at h
    intro j hj
    match hm : firstFreeBelow c m with
    | some k => rw [hm] at h; exact absurd h (by simp)
    | none =>
      rw [hm] at h
      by_cases hjm : j < m
      · exact ih hm j hjm
      · have hje : j = m := by omega
        intro hget
        rw [hje] at hget
        rw [if_pos hget] at h
        exact absurd h (by simp)

theorem firstFreeBelow_some {c : MsgColl} {n k : Nat}
    (h : firstFreeBelow c n = some k) :
    k < n ∧ getMsg c k = none ∧ ∀ j < k, getMsg c j ≠ none := by
  induction n with
  | zero => rw [firstFreeBelow] at h; exact absurd h (by simp)
  | succ m ih =>
    rw [firstFreeBelow] at h
    match hm : firstFreeBelow c m with
    | some k2 =>
      rw [hm] at h
      have hk : k2 = k := by simpa using h
      have := ih (hk ▸ hm)
      exact ⟨by omega, this.2.1, this.2.2⟩
    | none =>
      rw [hm] at h
      by_cases hget : getMsg c m = none
      · rw [if_pos hget] at h
        have hk : m = k := by simpa using h
        subst hk
        exact ⟨by omega, hget, firstFreeBelow_none hm⟩
      · rw [if_neg hget] at h
        exact absurd h (by simp)

/-! ## The store invariant and its preservation -/

/-- Invariant of a reachable collection state: ids strictly ascending
(hence unique), count within the configured maximum, every id within the
`uint8_t` range of the store interface. -/
def StoreInv (maxMsg : Nat) (c : MsgColl) : Prop :=
  SortedColl c ∧ c.length ≤ maxMsg ∧ ∀ p ∈ c, p.1 < 256

theorem storeInv_empty (maxMsg : Nat) : StoreInv maxMsg [] :=
  ⟨List.Pairwise.nil, by simp, by simp⟩

theorem getMsg_isSome_mem {c : MsgColl} {i : Nat}
    (h : getMsg c i ≠ none) : i ∈ ids c := by
  rw [getMsg] at h
  match hf : c.find? (fun p => p.1 == i) with
  | none => rw [hf] at h; exact absurd rfl h
  | some p =>
    have hp : (p.1 == i) = true := List.find?_some (p := fun (q : Nat × String) => q.1 == i) hf
    have hmem : p ∈ c := List.mem_of_find?_eq_some hf
    exact List.mem_map.mpr ⟨p, hmem, by simpa using hp⟩

theorem storeInv_put {fType : Collection} {maxMsg : Nat} {c : MsgColl}
    {i : Nat} {t : String} (hinv : StoreInv maxMsg c) :
    ∀ c2, put fType maxMsg c i t = .ok c2 → StoreInv maxMsg c2 := by
  intro c2 hok
  obtain ⟨hsort, hlen, hids⟩ := hinv
  rw [put] at hok
  by_cases hlong : t.length > maxLen fType
  · rw [if_pos hlong] at hok
    exact absurd hok (by simp)
  · rw [if_neg hlong] at hok
    by_cases hcap : getMsg c (i % 256) = none ∧ maxMsg ≤ c.length
    · rw [if_pos hcap] at hok
      exact absurd hok (by simp)
    · rw [if_neg hcap] at hok
      have hc2 : c2 = insertSorted (i % 256) t c := by
        rw [writeFileById, if_neg hlong] at hok
        simpa using hok.symm
      subst hc2
      refine ⟨sorted_insertSorted hsort, ?_, ?_⟩
      · by_cases hfree : getMsg c (i % 256) = none
        · have hnot : ¬ maxMsg ≤ c.length := fun h => hcap ⟨hfree, h⟩
          have := length_insertSorted_of_not_mem
            (t := t) ((getMsg_eq_none_iff c (i % 256)).mp hfree)
          omega
        · have hmem : (i % 256) ∈ ids c := getMsg_isSome_mem hfree
          rw [length_insertSorted_of_mem hsort hmem]
          exact hlen
      · intro p hp
        rcases mem_insertSorted hp with h | h
        · rw [h]
          exact Nat.mod_lt _ (by omega)
        · exact hids p h

theorem storeInv_delete {maxMsg : Nat} {c : MsgColl} {i : Nat}
    (hinv : StoreInv maxMsg c) :
    ∀ c2, deleteById c i = .ok c2 → StoreInv maxMsg c2 := by
  intro c2 hok
  obtain ⟨hsort, hlen, hids⟩ := hinv
  rw [deleteById] at hok
  by_cases hmem : (getMsg c i).isSome
  · rw [if_pos hmem] at hok
    have hc2 : c2 = removeMsg c i := by simpa using hok.symm
    subst hc2
    exact ⟨sorted_removeMsg hsort i,
      Nat.le_trans (length_removeMsg_le c i) hlen,
      fun p hp => hids p (mem_removeMsg hp)⟩
  · rw [if_neg hmem] at hok
    exact absurd hok (by simp)

theorem storeInv_validateCandidates {maxMsg : Nat} (hm : maxMsg ≤ 256)
    (cands : List String) : StoreInv maxMsg (validateCandidates maxMsg cands) :=
  ⟨sorted_validateCandidates maxMsg cands,
   length_validateCandidates maxMsg cands,
   fun _ hp => Nat.lt_of_lt_of_le (mem_validateCandidates_key hp) hm⟩

theorem storeInv_applyOp {fType : Collection} {maxMsg : Nat} {c : MsgColl}
    (hm : maxMsg ≤ 256) (hinv : StoreInv maxMsg c) (op : StoreOp) :
    StoreInv maxMsg (applyOp fType maxMsg c op) := by
  match op with
  | .putMsg i t =>
    rw [applyOp]
    match hr : put fType maxMsg c i t with
    | .ok c2 => exact storeInv_put hinv c2 hr
    | .error _ => exact hinv
  | .delMsg i =>
    rw [applyOp]
    match hr : deleteById c i with
    | .ok c2 => exact storeInv_delete hinv c2 hr
    | .error _ => exact hinv
  | .replAll cands =>
    rw [applyOp]
    exact storeInv_validateCandidates hm cands

theorem storeInv_foldl {fType : Collection} {maxMsg : Nat}
    (hm : maxMsg ≤ 256) :
    ∀ (ops : List StoreOp) (c : MsgColl), StoreInv maxMsg c →
      StoreInv maxMsg (List.foldl (applyOp fType maxMsg) c ops) := by
  intro ops
  induction ops with
  | nil => intro c hc; exact hc
  | cons op rest ih =>
    intro c hc
    rw [List.foldl_cons]
    exact ih _ (storeInv_applyOp hm hc op)

theorem storeInv_runOps {fType : Collection} {maxMsg : Nat}
    (hm : maxMsg ≤ 256) (ops : List StoreOp) :
    StoreInv maxMsg (runOps fType maxMsg ops) :=
  storeInv_foldl hm ops [] (storeInv_empty maxMsg)

/-! ## Helper lemmas about the settings store -/

theorem parseSettingName_key (n : SettingName) :
    parseSettingName (settingKey n) = some n := by
  cases n <;> rfl

theorem readSettings_writeSettings (s : Settings) (n : SettingName) :
    readSettings (writeSettings s) n = s n := by
  cases n <;> rfl

theorem updateSetting_le_max (s : Settings) (field newValue : String)
    (n0 : SettingName) (h : s n0 ≤ settingMax n0) :
    (updateSetting s field newValue).2 n0 ≤ settingMax n0 := by
  rw [updateSetting]
  split
  · exact h
  · split
    · exact h
    · split
      · rename_i hb
        dsimp only
        split
        · rename_i he
          rw [he]
          exact hb.2
        · exact h
      · exact h

theorem nodup_of_sorted {c : MsgColl} (hs : SortedColl c) :
    (ids c).Nodup := by
  have hlt : List.Pairwise (· < ·) (ids c) := List.pairwise_map.mpr hs
  exact hlt.imp Nat.ne_of_lt

/-! ## Claim theorems -/

/-- C1: The News replace-all refresh builds and validates the new
generation in full and commits it atomically; whichever step `j` the
execution is interrupted at, a subsequent enumeration of the News
collection is either exactly the old generation or exactly the fully-new
one, its ids are free of duplicates, and it never exceeds the configured
`settingNewsMaxMsg` count. -/
theorem C1_replaceAll_atomic (maxMsg : Nat) (old : MsgColl)
    (cands : List String) (j : Nat) (hsort : SortedColl old)
    (hlen : old.length ≤ maxMsg) :
    (replaceAllInterrupted maxMsg old cands j = old ∨
      replaceAllInterrupted maxMsg old cands j =
        validateCandidates maxMsg cands) ∧
    (ids (replaceAllInterrupted maxMsg old cands j)).Nodup ∧
    (replaceAllInterrupted maxMsg old cands j).length ≤ maxMsg := by
  rw [replaceAllInterrupted]
  split
  · exact ⟨Or.inl rfl, nodup_of_sorted hsort, hlen⟩
  · exact ⟨Or.inr rfl, nodup_of_sorted (sorted_validateCandidates _ _),
      length_validateCandidates _ _⟩

theorem C1_witness :
    (replaceAllInterrupted 2 [(0, "x")] ["a", "b", "c"] 5 = [(0, "x")] ∨
      replaceAllInterrupted 2 [(0, "x")] ["a", "b", "c"] 5 =
        validateCandidates 2 ["a", "b", "c"]) ∧
    (ids (replaceAllInterrupted 2 [(0, "x")] ["a", "b", "c"] 5)).Nodup ∧
    (replaceAllInterrupted 2 [(0, "x")] ["a", "b", "c"] 5).length ≤ 2 :=
  C1_replaceAll_atomic 2 [(0, "x")] ["a", "b", "c"] 5 (by decide)
    (by decide)

/-- C2: For every setting and every raw value that parses to a value `v`
within the setting's declared bounds, `updateSetting` accepts the value
and a `writeSettings` / `readSettings` persist-load round trip returns
exactly `v`. -/
theorem C2_settings_roundTrip (s : Settings) (n : SettingName)
    (raw : String) (v : Nat) (hparse : parseNatRaw raw = some v)
    (hmin : settingMin n ≤ v) (hmax : v ≤ settingMax n) :
    (updateSetting s (settingKey n) raw).1 = .ok () ∧
    readSettings (writeSettings (updateSetting s (settingKey n) raw).2) n
      = v := by
  have hstate : updateSetting s (settingKey n) raw =
      (.ok (), fun m => if m = n then v else s m) := by
    rw [updateSetting, parseSettingName_key]
    simp only [hparse]
    rw [if_pos ⟨hmin, hmax⟩]
  rw [hstate]
  refine ⟨rfl, ?_⟩
  rw [readSettings_writeSettings]
  simp

theorem C2_witness :
    (updateSetting defaultSettings (settingKey .textSpeed) "33").1 =
      .ok () ∧
    readSettings (writeSettings
      (updateSetting defaultSettings (settingKey .textSpeed) "33").2)
      .textSpeed = 33 :=
  C2_settings_roundTrip defaultSettings .textSpeed "33" 33 (by decide)
    (by decide) (by decide)

/-- C3: For every collection tag, id and message text within the
collection's length bound, `writeFileById` succeeds and a subsequent
`readFileById` under the same `(collection, id)` returns text
byte-identical to what was written. -/
theorem C3_write_read_roundTrip (fType : Collection) (c : MsgColl)
    (mId : Nat) (msg : String) (h : msg.length ≤ maxLen fType) :
    (writeFileById fType c mId msg).1 = true ∧
    readFileById fType (writeFileById fType c mId msg).2 mId =
      some msg := by
  have hn : ¬ msg.length > maxLen fType := by omega
  rw [writeFileById, if_neg hn]
  exact ⟨rfl, getMsg_insertSorted_self _ _ _⟩

theorem C3_witness :
    (writeFileById .Local [] 3 "hello").1 = true ∧
    readFileById .Local (writeFileById .Local [] 3 "hello").2 3 =
      some "hello" :=
  C3_write_read_roundTrip .Local [] 3 "hello" (by decide)

/-- C4: Every collection state reachable through the store interface
holds at most the configured maximum number of messages; a message-limit
setting accepted by `updateSetting` never exceeds the compile-time
ceiling `MAX_FILES_IN_LIST`; and with the collection full, putting one
more message under a fresh id fails with `CapacityExceeded` and leaves
the collection unchanged. -/
theorem C4_capacity :
    (∀ (fType : Collection) (maxMsg : Nat) (ops : List StoreOp),
        maxMsg ≤ MAX_FILES_IN_LIST →
        (runOps fType maxMsg ops).length ≤ maxMsg) ∧
    (∀ (maxMsg : Nat) (c : MsgColl) (i : Nat) (t : String),
        c.length = maxMsg → getMsg c (i % 256) = none →
        t.length ≤ LOCAL_SIZE →
        put .Local maxMsg c i t = .error .CapacityExceeded ∧
        applyOp .Local maxMsg c (.putMsg i t) = c) ∧
    (∀ (s : Settings) (field raw : String),
        s .localMaxMsg ≤ MAX_FILES_IN_LIST →
        (updateSetting s field raw).2 .localMaxMsg ≤ MAX_FILES_IN_LIST) ∧
    (∀ (s : Settings) (field raw : String),
        s .newsMaxMsg ≤ MAX_FILES_IN_LIST →
        (updateSetting s field raw).2 .newsMaxMsg ≤ MAX_FILES_IN_LIST) := by
  refine ⟨?_, ?_, ?_, ?_⟩
  · intro fType maxMsg ops hceil
    have hm : maxMsg ≤ 256 := by
      rw [MAX_FILES_IN_LIST] at hceil
      omega
    exact (storeInv_runOps hm ops).2.1
  · intro maxMsg c i t hfull hfree hlen
    have hshort : ¬ t.length > maxLen Collection.Local := by
      rw [maxLen]
      omega
    have hput : put .Local maxMsg c i t = .error .CapacityExceeded := by
      rw [put, if_neg hshort, if_pos ⟨hfree, by omega⟩]
    refine ⟨hput, ?_⟩
    rw [applyOp, hput]
  · intro s field raw h
    exact updateSetting_le_max s field raw .localMaxMsg h
  · intro s field raw h
    exact updateSetting_le_max s field raw .newsMaxMsg h

theorem C4_witness :
    put .Local 1 [(0, "a")] 1 "b" = .error .CapacityExceeded ∧
    applyOp .Local 1 [(0, "a")] (.putMsg 1 "b") = [(0, "a")] :=
  C4_capacity.2.1 1 [(0, "a")] 1 "b" rfl rfl (by decide)

/-- C5: For every setting and every raw value that fails to parse or
whose parsed value lies outside the setting's inclusive bounds,
`updateSetting` reports `InvalidValue` and leaves the settings state
completely unchanged. -/
theorem C5_updateSetting_invalid (s : Settings) (n : SettingName)
    (raw : String)
    (h : parseNatRaw raw = none ∨
      ∃ v, parseNatRaw raw = some v ∧
        ¬(settingMin n ≤ v ∧ v ≤ settingMax n)) :
    updateSetting s (settingKey n) raw = (.error .InvalidValue, s) := by
  rcases h with h | ⟨v, hv, hb⟩
  · rw [updateSetting, parseSettingName_key]
    simp only [h]
  · rw [updateSetting, parseSettingName_key]
    simp only [hv]
    rw [if_neg hb]

theorem C5_witness :
    updateSetting defaultSettings (settingKey .textSpeed) "99" =
      (.error .InvalidValue, defaultSettings) :=
  C5_updateSetting_invalid defaultSettings .textSpeed "99"
    (Or.inr ⟨99, by decide, by decide⟩)

/-- A five-message Local collection at its configured maximum of 5. -/
def c5demo : MsgColl :=
  [(0, "m0"), (1, "m1"), (2, "m2"), (3, "old3"), (4, "m4")]

/-- `c5demo` after deleting id 3. -/
def c4demo : MsgColl := [(0, "m0"), (1, "m1"), (2, "m2"), (4, "m4")]

/-- `c4demo` after writing new content under the reallocated id 3. -/
def c5new : MsgColl :=
  [(0, "m0"), (1, "m1"), (2, "m2"), (3, "new3"), (4, "m4")]

/-- C6: `allocateId` returns the smallest unused id below the configured
maximum whenever one exists and `CapacityExceeded` when none is free; in
particular, after deleting id 3 from a full Local collection the next
allocation returns 3, and a `get` after writing there returns the new
content, never the old. -/
theorem C6_allocateId_smallest :
    (∀ (maxMsg : Nat) (c : MsgColl) (k : Nat),
        allocateId maxMsg c = .ok k →
        k < maxMsg ∧ getMsg c k = none ∧ ∀ j < k, getMsg c j ≠ none) ∧
    (∀ (maxMsg : Nat) (c : MsgColl),
        (∃ j, j < maxMsg ∧ getMsg c j = none) →
        ∃ k, allocateId maxMsg c = .ok k) ∧
    (∀ (maxMsg : Nat) (c : MsgColl),
        (∀ j < maxMsg, getMsg c j ≠ none) →
        allocateId maxMsg c = .error .CapacityExceeded) ∧
    (deleteById c5demo 3 = .ok c4demo ∧
      allocateId 5 c4demo = .ok 3 ∧
      put .Local 5 c4demo 3 "new3" = .ok c5new ∧
      getMsg c5new 3 = some "new3" ∧
      getMsg c5new 3 ≠ some "old3") := by
  refine ⟨?_, ?_, ?_, rfl, rfl, rfl, rfl, by decide⟩
  · intro maxMsg c k hok
    rw [allocateId] at hok
    match hm : firstFreeBelow c maxMsg with
    | some k2 =>
      rw [hm] at hok
      have hk : k2 = k := by simpa using hok
      exact hk ▸ firstFreeBelow_some hm
    | none =>
      rw [hm] at hok
      exact absurd hok (by simp)
  · intro maxMsg c ⟨j, hj, hfree⟩
    match hm : firstFreeBelow c maxMsg with
    | some k => exact ⟨k, by rw [allocateId, hm]⟩
    | none => exact absurd hfree (firstFreeBelow_none hm j hj)
  · intro maxMsg c hall
    match hm : firstFreeBelow c maxMsg with
    | some k =>
      have hspec := firstFreeBelow_some hm
      exact absurd hspec.2.1 (hall k hspec.1)
    | none => rw [allocateId, hm]

theorem C6_witness : getMsg c4demo 3 = none :=
  (C6_allocateId_smallest.1 5 c4demo 3 rfl).2.1

/-- C7: A News refresh whose fetch suffers a transport failure, or whose
response fails to parse, reports the failure, leaves the previous News
collection and the last-refreshed bookkeeping completely untouched, and
therefore leaves the refresh due again at the next scheduled tick. -/
theorem C7_newsFailure_keepsState (maxMsg : Nat) (st : NewsClientState)
    (now : Nat) (fetched : FetchOutcome)
    (h : fetched = none ∨ fetched = some none) :
    (getNewsapiData maxMsg st now fetched).2 = st ∧
    ((getNewsapiData maxMsg st now fetched).1 =
        .error .TransportFailure ∨
      (getNewsapiData maxMsg st now fetched).1 = .error .ParseFailure) ∧
    ∀ (interval now2 : Nat),
      refreshDue interval (getNewsapiData maxMsg st now fetched).2 now2 =
        refreshDue interval st now2 := by
  rcases h with h | h <;> subst h
  · exact ⟨rfl, Or.inl rfl, fun _ _ => rfl⟩
  · exact ⟨rfl, Or.inr rfl, fun _ _ => rfl⟩

theorem C7_witness :
    (getNewsapiData 10 ⟨[(0, "x")], 42⟩ 99 none).2 = ⟨[(0, "x")], 42⟩ :=
  (C7_newsFailure_keepsState 10 ⟨[(0, "x")], 42⟩ 99 none (Or.inl rfl)).1

/-- Scheduler demo stores: Local = \x7bA, B\x7d, News = \x7bC\x7d. -/
def rotDemo : Stores := ⟨[(0, "A"), (1, "B")], [(0, "C")]⟩

/-- `rotDemo` after the Local message B (id 1) has been deleted. -/
def rotDemoDel : Stores := ⟨[(0, "A")], [(0, "C")]⟩

/-- A store's rotation is strictly ascending in `posKey` whenever both
collections are id-sorted and the Local ids fit the `uint8_t` range, as
every reachable store does: Local entries keep their ascending ids and
precede every News entry. -/
theorem rotation_pairwise {s : Stores} (hl : SortedColl s.localMsgs)
    (hn : SortedColl s.newsMsgs) (hb : ∀ p ∈ s.localMsgs, p.1 < 256) :
    List.Pairwise (fun a b => posKey a < posKey b) (rotation s) := by
  rw [rotation]
  refine List.pairwise_append.mpr ⟨?_, ?_, ?_⟩
  · refine List.pairwise_map.mpr (hl.imp ?_)
    intro a b h
    simpa [posKey] using h
  · refine List.pairwise_map.mpr (hn.imp ?_)
    intro a b h
    simpa [posKey] using h
  · intro a ha b hbm
    obtain ⟨p, hp, rfl⟩ := List.mem_map.mp ha
    obtain ⟨q, hq, rfl⟩ := List.mem_map.mp hbm
    have hp256 := hb p hp
    simp only [posKey]
    omega

/-- C8: The Scheduler rotates through Local messages in ascending id
order, then News messages, then wraps: with Local = \x7bA, B\x7d and
News = \x7bC\x7d consecutive advances visit A, B, C and return to A, and
after deleting B mid-rotation the next advance skips from A directly to
C. In general, from every position of every non-empty id-sorted snapshot
(all reachable snapshots are such), `advance` succeeds and lands exactly
on the next still-existing entry in rotation order: the entry of minimal
`posKey` among those strictly after the current position, or, when
nothing lies after it, the front of the rotation (the entry of minimal
`posKey` overall). -/
theorem C8_rotation :
    (advance rotDemo (.Local, 0) = some (.Local, 1) ∧
      advance rotDemo (.Local, 1) = some (.News, 0) ∧
      advance rotDemo (.News, 0) = some (.Local, 0) ∧
      getMsg rotDemo.localMsgs 0 = some "A" ∧
      getMsg rotDemo.localMsgs 1 = some "B" ∧
      getMsg rotDemo.newsMsgs 0 = some "C" ∧
      deleteById rotDemo.localMsgs 1 = .ok rotDemoDel.localMsgs ∧
      rotDemo.newsMsgs = rotDemoDel.newsMsgs ∧
      advance rotDemoDel (.Local, 0) = some (.News, 0)) ∧
    (∀ (s : Stores) (cur : Collection × Nat),
      SortedColl s.localMsgs → SortedColl s.newsMsgs →
      (∀ p ∈ s.localMsgs, p.1 < 256) → rotation s ≠ [] →
      (advance s cur).isSome = true ∧
      ∀ e, advance s cur = some e →
        e ∈ rotation s ∧
        ((posKey cur < posKey e ∧
            ∀ q ∈ rotation s, posKey cur < posKey q →
              posKey e ≤ posKey q) ∨
          ((∀ q ∈ rotation s, posKey q ≤ posKey cur) ∧
            ∀ q ∈ rotation s, posKey e ≤ posKey q))) := by
  refine ⟨⟨rfl, rfl, rfl, rfl, rfl, rfl, rfl, rfl, rfl⟩, ?_⟩
  intro s cur hl hn hb hne
  have hpair := rotation_pairwise hl hn hb
  match hf : (rotation s).find? (fun e => posKey cur < posKey e) with
  | some e0 =>
    have hadv : advance s cur = some e0 := by rw [advance, hf]
    refine ⟨by rw [hadv]; rfl, ?_⟩
    intro e he
    have he0 : e0 = e := by rw [hadv] at he; simpa using he
    subst he0
    obtain ⟨hpe, as, bs, hsplit, hprev⟩ := List.find?_eq_some.mp hf
    refine ⟨List.mem_of_find?_eq_some hf,
      Or.inl ⟨by simpa using hpe, ?_⟩⟩
    intro q hq hcq
    rw [hsplit] at hq hpair
    have hbs : ∀ r ∈ bs, posKey e0 < posKey r :=
      (List.pairwise_cons.mp (List.pairwise_append.mp hpair).2.1).1
    rcases List.mem_append.mp hq with hqa | hqb
    · have hqle := hprev q hqa
      simp at hqle
      omega
    · rcases List.mem_cons.mp hqb with rfl | hqb
      · exact Nat.le_refl _
      · exact Nat.le_of_lt (hbs q hqb)
  | none =>
    have hall : ∀ q ∈ rotation s, posKey q ≤ posKey cur := by
      intro q hq
      have hnlt := List.find?_eq_none.mp hf q hq
      simp at hnlt
      omega
    cases hrot : rotation s with
    | nil => exact absurd hrot hne
    | cons e0 rest =>
      have hadv : advance s cur = some e0 := by
        rw [advance, hf, hrot]
        rfl
      refine ⟨by rw [hadv]; rfl, ?_⟩
      intro e he
      have he0 : e0 = e := by rw [hadv] at he; simpa using he
      subst he0
      rw [hrot] at hall hpair
      have hrest : ∀ r ∈ rest, posKey e0 < posKey r :=
        (List.pairwise_cons.mp hpair).1
      refine ⟨List.mem_cons_self _ _, Or.inr ⟨hall, ?_⟩⟩
      intro q hq
      rcases List.mem_cons.mp hq with rfl | hqr
      · exact Nat.le_refl _
      · exact Nat.le_of_lt (hrest q hqr)

theorem C8_witness : (advance rotDemo (.News, 7)).isSome = true :=
  (C8_rotation.2 rotDemo (.News, 7) (by decide) (by decide) (by decide)
    (by decide)).1


/-- C9: A request whose route matches no registered handler is answered
by the typed not-found response: HTTP status 404 (non-2xx) with a body
that carries the requested path. -/
theorem C9_unknownRoute (uri : String)
    (h : uri ∉ registeredRoutes) :
    processAPI uri = sendApiNotFound uri ∧
    (processAPI uri).status = 404 ∧
    ¬(200 ≤ (processAPI uri).status ∧ (processAPI uri).status < 300) ∧
    ∃ pre post, (processAPI uri).body = pre ++ uri ++ post := by
  have hp : processAPI uri = sendApiNotFound uri := by
    have h2 : ¬(registeredRoutes.contains uri = true) := by
      rw [show registeredRoutes.contains uri =
        List.elem uri registeredRoutes from rfl]
      rw [List.elem_eq_mem, decide_eq_true_eq]
      exact h
    rw [processAPI, if_neg h2]
  refine ⟨hp, ?_, ?_, ?_⟩ <;> rw [hp]
  · rfl
  · rw [sendApiNotFound]
    simp
  · exact ⟨"\x7b\"error\": \"not found\", \"uri\": \"", "\"\x7d", rfl⟩

theorem C9_witness :
    processAPI "/api/doesNotExist" =
      sendApiNotFound "/api/doesNotExist" ∧
    (processAPI "/api/doesNotExist").status = 404 :=
  ⟨(C9_unknownRoute "/api/doesNotExist" (by decide)).1,
   (C9_unknownRoute "/api/doesNotExist" (by decide)).2.1⟩

/-- C10: The message-store interface takes its id as a `uint8_t`: writes
and reads address the record keyed by the id reduced into `[0, 255]`, and
every message in every collection state reachable through the interface
has an id in `[0, 255]`. -/
theorem C10_uint8_ids :
    (∀ (fType : Collection) (maxMsg : Nat) (ops : List StoreOp),
        maxMsg ≤ 256 →
        ∀ p ∈ runOps fType maxMsg ops, p.1 ≤ 255) ∧
    (∀ (fType : Collection) (c : MsgColl) (mId : Nat) (msg : String),
        writeFileById fType c mId msg =
          writeFileById fType c (mId % 256) msg) ∧
    (∀ (fType : Collection) (c : MsgColl) (mId : Nat),
        readFileById fType c mId = readFileById fType c (mId % 256)) := by
  refine ⟨?_, ?_, ?_⟩
  · intro fType maxMsg ops hm p hp
    have := (@storeInv_runOps fType maxMsg hm ops).2.2 p hp
    omega
  · intro fType c mId msg
    rw [writeFileById, writeFileById,
      Nat.mod_mod_of_dvd mId (Nat.dvd_refl 256)]
  · intro fType c mId
    rw [readFileById, readFileById,
      Nat.mod_mod_of_dvd mId (Nat.dvd_refl 256)]

theorem C10_witness : ((44 : Nat), "x").1 ≤ 255 :=
  C10_uint8_ids.1 .Local 5 [.putMsg 300 "x"] (by decide) (44, "x")
    (by decide)

end ESPTicker
